import Mathlib

/-!
Verification development for the dependency-miner script
(`scripts/dependency-miner.py`).

The script extracts Maven dependency declarations from `pom.xml` texts by
one of two strategies (`_parse_pom_dependencies`, an lxml tree parse, and
`_parse_dependency_blocks`, a regex scan), diffs the before/after snapshots
of each commit that modifies `pom.xml`, accumulates change rows plus a set
of commit hashes, and writes a CSV report.

Embedding choices:
* A Python dict `groupId:artifactId -> version` becomes an insertion-ordered
  association list `Snapshot` with an overwrite-on-duplicate insert
  (`snapInsert`), matching dict assignment semantics.
* A `<dependency>` element is abstracted to a `DepEntry`: for each of its
  `groupId` / `artifactId` / `version` children, `none` means the child
  element is absent, `some none` means it is present with no text
  (lxml gives `.text = None`, so Python `.strip()` raises), and
  `some (some s)` means it is present with text `s` (nonempty in any real
  document).  A descriptor text is a `PomText`: the empty string, a
  non-XML text (carrying the `<dependency>` blocks the regex scan finds in
  it), or a well-formed document carrying its dependency entries in
  document order.
* Python exceptions (`etree.XMLSyntaxError` from `etree.fromstring`,
  `AttributeError` from `None.strip()`) become `Except Unit`.
* Python `str.strip()` becomes `pyStrip`, a whitespace trim on the
  character list of the string.
-/

/-- The whitespace characters Python `str.strip()` removes (the ASCII ones;
the rarely seen further unicode spaces are out of scope here). -/
def isPyWhitespace (ch : Char) : Bool :=
  ch = ' ' || ch = '\t' || ch = '\n' || ch = '\r' || ch = '\x0b' || ch = '\x0c'

/-- Python `str.strip()` with no argument: remove surrounding whitespace. -/
def pyStrip (s : String) : String :=
  String.mk (((s.data.dropWhile isPyWhitespace).reverse.dropWhile isPyWhitespace).reverse)

/-- A dependency snapshot: the Python dict `"groupId:artifactId" -> version`
rendered as an insertion-ordered association list with unique keys.  The
value is `none` for a version-less declaration (Python `None`). -/
abbrev Snapshot := List (String × Option String)

/-- Whether the dict already has the key (Python `key in dict`). -/
def snapHasKey (s : Snapshot) (k : String) : Bool :=
  s.any (fun p => p.1 == k)

/-- Dict lookup: `some v` when the key is present with value `v`
(where `v` itself is an optional version string), `none` when absent. -/
def snapLookup (s : Snapshot) (k : String) : Option (Option String) :=
  (s.find? (fun p => p.1 == k)).map Prod.snd

/-- The dict keys in insertion order. -/
def snapKeys (s : Snapshot) : List String := s.map Prod.fst

/-- Python dict assignment `d[k] = v`: overwrite in place if the key exists,
otherwise append at the end. -/
def snapInsert (s : Snapshot) (k : String) (v : Option String) : Snapshot :=
  if s.any (fun p => p.1 == k) then
    s.map (fun p => if p.1 == k then (k, v) else p)
  else
    s ++ [(k, v)]

/-- One `<dependency>` element of a descriptor, abstracted to the state of
its `groupId`, `artifactId` and `version` children: `none` = child absent,
`some none` = child present with no text (`.text` is Python `None`),
`some (some s)` = child present with text `s`. -/
structure DepEntry where
  group : Option (Option String)
  artifact : Option (Option String)
  version : Option (Option String)
deriving DecidableEq, Repr

/-- A descriptor text.  `empty` is the empty string; `malformed blocks` is a
nonempty text that `etree.fromstring` rejects, carrying the `<dependency>`
blocks the regex scan nevertheless finds in it (possibly none, e.g. for a
whitespace-only text); `wellFormed entries` is a well-formed document whose
`<dependency>` elements, in document order, are `entries`. -/
inductive PomText where
  | empty : PomText
  | malformed (blocks : List DepEntry) : PomText
  | wellFormed (entries : List DepEntry) : PomText
deriving DecidableEq, Repr

/-- The body of the `for dep in tree.findall(dep_path, ...)` loop of
`_parse_pom_dependencies`, for one `<dependency>` element: skip (`.ok none`)
when the `groupId` or `artifactId` child is absent; raise (`.error ()`,
Python `AttributeError` from `None.strip()`) when a present child has no
text; otherwise produce the key/value pair to store (`.ok (some (k, v))`). -/
def parsePomEntry (e : DepEntry) : Except Unit (Option (String × Option String)) :=
  match e.group, e.artifact with
  | none, _ => .ok none
  | some _, none => .ok none
  | some gt, some at_ =>
    match gt with
    | none => .error ()
    | some g =>
      match at_ with
      | none => .error ()
      | some a =>
        match e.version with
        | none => .ok (some (pyStrip g ++ ":" ++ pyStrip a, none))
        | some none => .error ()
        | some (some v) => .ok (some (pyStrip g ++ ":" ++ pyStrip a, some (pyStrip v)))

/-- The whole `findall` loop of `_parse_pom_dependencies`: fold
`parsePomEntry` over the entries in document order, accumulating the dict. -/
def parsePomEntries : List DepEntry → Snapshot → Except Unit Snapshot
  | [], deps => .ok deps
  | e :: rest, deps =>
    match parsePomEntry e with
    | .error u => .error u
    | .ok none => parsePomEntries rest deps
    | .ok (some (k, v)) => parsePomEntries rest (snapInsert deps k v)

/-- `_parse_pom_dependencies(pom_xml_text)`: the structural (lxml) strategy.
`none` input is Python `None`; an empty text is falsy so both return `{}`;
a malformed text makes `etree.fromstring` raise; a well-formed text is
reduced to its dependency entries and folded by `parsePomEntries`
(the namespace-aware and namespace-free branches extract the same children,
so they collapse in this abstraction). -/
def _parse_pom_dependencies (input : Option PomText) : Except Unit Snapshot :=
  match input with
  | none => .ok []
  | some .empty => .ok []
  | some (.malformed _) => .error ()
  | some (.wellFormed entries) => parsePomEntries entries []

/-- One `<dependency>` block of `_parse_dependency_blocks`: the regexes
`<groupId>([^<]+)</groupId>` etc. match exactly when the child is present
with text, and the block is kept only when groupId, artifactId AND version
all match (`if g and a and v`). -/
def regexEntry (e : DepEntry) : Option (String × Option String) :=
  match e.group, e.artifact, e.version with
  | some (some g), some (some a), some (some v) =>
      some (pyStrip g ++ ":" ++ pyStrip a, some (pyStrip v))
  | _, _, _ => none

/-- The `re.findall` loop of `_parse_dependency_blocks` over the blocks. -/
def regexEntries : List DepEntry → Snapshot → Snapshot
  | [], deps => deps
  | e :: rest, deps =>
    match regexEntry e with
    | none => regexEntries rest deps
    | some (k, v) => regexEntries rest (snapInsert deps k v)

/-- `_parse_dependency_blocks(pom_xml_text)`: the pattern-based (regex)
strategy.  Total: no code path raises.  `None`, empty and whitespace-only
inputs return `{}` (a whitespace-only text is `malformed []`: it has no
`<dependency>` block); otherwise the regex scan keeps the blocks it fully
matches, whether or not the text is well-formed XML. -/
def _parse_dependency_blocks (input : Option PomText) : Snapshot :=
  match input with
  | none => []
  | some .empty => []
  | some (.malformed blocks) => regexEntries blocks []
  | some (.wellFormed entries) => regexEntries entries []

/-- The classification a diff emits for one dependency key.  `changedFrom`
carries both version strings (each possibly Python `None`). -/
inductive Change where
  | added : Change
  | removed : Change
  | changedFrom (oldV newV : Option String) : Change
deriving DecidableEq, Repr

/-- Python `str(x)` for an optional version: `None` prints as "None" inside
the f-string `f"changed from {old_v} to {new_v}"`. -/
def pyStr : Option String → String
  | none => "None"
  | some s => s

/-- The change-type cell written to the CSV row. -/
def changeDesc : Change → String
  | .added => "added"
  | .removed => "removed"
  | .changedFrom ov nv => "changed from " ++ pyStr ov ++ " to " ++ pyStr nv

/-- The body of the changed-versions loop of `mine_repository` for one
common key: `old_v = old_deps[dep]; new_v = new_deps[dep]; if old_v != new_v`
emit the record, else nothing. -/
def changedRecord (oldS newS : Snapshot) (k : String) : Option (String × Change) :=
  match snapLookup oldS k, snapLookup newS k with
  | some ov, some nv =>
      if ov = nv then none else some (k, Change.changedFrom ov nv)
  | _, _ => none

/-- The three diff loops of `mine_repository` over one before/after snapshot
pair: added keys (`new_deps.keys() - old_deps.keys()`), then removed keys
(`old_deps.keys() - new_deps.keys()`), then common keys with differing
values.  Python iterates the key sets in an unspecified order; here each
set is iterated in the insertion order of the dict it filters. -/
def diffSnapshots (oldS newS : Snapshot) : List (String × Change) :=
  (((snapKeys newS).filter (fun k => !snapHasKey oldS k)).map
      (fun k => (k, Change.added)))
  ++ (((snapKeys oldS).filter (fun k => !snapHasKey newS k)).map
      (fun k => (k, Change.removed)))
  ++ (((snapKeys oldS).filter (fun k => snapHasKey newS k)).filterMap
      (changedRecord oldS newS))

/-- One modified file of a commit, as PyDriller exposes it: a bare filename
and the optional before/after text contents. -/
structure ModifiedFile where
  filename : String
  source_code_before : Option PomText
  source_code : Option PomText
deriving DecidableEq, Repr

/-- One commit of the traversal, as PyDriller exposes it. -/
structure Commit where
  hash : String
  committer_date : String
  author_name : String
  modified_files : List ModifiedFile
deriving DecidableEq, Repr

/-- One CSV data row produced for a commit: hash, date, author, dependency
key, change-type text. -/
def rowOf (c : Commit) (dep : String) (ch : Change) : List String :=
  [c.hash, c.committer_date, c.author_name, dep, changeDesc ch]

/-- The rows one modified file contributes inside `mine_repository`: a file
not named exactly `pom.xml` is skipped (`continue`), otherwise both texts
are parsed by the structural strategy (old first, as in the source; a parse
error aborts the run) and the diff records become rows. -/
def fileRecords (c : Commit) (m : ModifiedFile) : Except Unit (List (List String)) :=
  if m.filename = "pom.xml" then
    match _parse_pom_dependencies m.source_code_before with
    | .error u => .error u
    | .ok oldS =>
      match _parse_pom_dependencies m.source_code with
      | .error u => .error u
      | .ok newS => .ok ((diffSnapshots oldS newS).map (fun r => rowOf c r.1 r.2))
  else .ok []

/-- Python `set.add`: insert the hash unless already present.  The set is
modelled as a duplicate-free list in first-insertion order. -/
def setAdd (s : List String) (x : String) : List String :=
  if x ∈ s then s else s ++ [x]

/-- The mining state: the accumulated `rows` list and the
`commits_with_changes` set. -/
abbrev MineState := List (List String) × List String

/-- Emitting the records of one file: each record appends its row and adds
the commit hash to the set, exactly as each loop iteration of
`mine_repository` does. -/
def emitRecords (st : MineState) (h : String) (recs : List (List String)) : MineState :=
  recs.foldl (fun st row => (st.1 ++ [row], setAdd st.2 h)) st

/-- Processing one modified file: compute its records and emit them. -/
def fileStep (c : Commit) (st : MineState) (m : ModifiedFile) : Except Unit MineState :=
  match fileRecords c m with
  | .error u => .error u
  | .ok recs => .ok (emitRecords st c.hash recs)

/-- The `for mod in commit.modified_files` loop, file by file. -/
def fileFold (c : Commit) : List ModifiedFile → MineState → Except Unit MineState
  | [], st => .ok st
  | m :: ms, st =>
    match fileStep c st m with
    | .error u => .error u
    | .ok st' => fileFold c ms st'

/-- Processing one commit: run the file loop over its modified files. -/
def commitStep (st : MineState) (c : Commit) : Except Unit MineState :=
  fileFold c c.modified_files st

/-- The `for commit in Repository(repo_url).traverse_commits()` loop,
commit by commit. -/
def commitFold : List Commit → MineState → Except Unit MineState
  | [], st => .ok st
  | c :: cs, st =>
    match commitStep st c with
    | .error u => .error u
    | .ok st' => commitFold cs st'

/-- The whole traversal of `mine_repository`, starting from empty rows and
an empty commit set. -/
def mineCommits (commits : List Commit) : Except Unit MineState :=
  commitFold commits ([], [])

/-- All records the files of one commit produce, in emission order,
accumulated the way the row list grows. -/
def collectRecords (c : Commit) : List ModifiedFile → List (List String) →
    Except Unit (List (List String))
  | [], acc => .ok acc
  | m :: ms, acc =>
    match fileRecords c m with
    | .error u => .error u
    | .ok recs => collectRecords c ms (acc ++ recs)

/-- All records one commit produces, across its modified files. -/
def commitRecords (c : Commit) : Except Unit (List (List String)) :=
  collectRecords c c.modified_files []

/-- The records of a commit in a run that did not abort (`[]` on the error
branch, which a successful run never reaches). -/
def commitRecList (c : Commit) : List (List String) :=
  (commitRecords c).toOption.getD []

/-- The output filename `f"\x7bowner\x7d_\x7brepo\x7d_dependency_commits.csv"`. -/
def output_filename (owner repo : String) : String :=
  owner ++ "_" ++ repo ++ "_dependency_commits.csv"

/-- The fixed header row written first by `writer.writerow([...])`. -/
def csvHeader : List String :=
  ["commit_hash", "commit_date", "commit_author", "dependency", "change_type"]

/-- Python `csv.writer` field quoting (QUOTE_MINIMAL): a field containing a
delimiter, quote or line break is wrapped in double quotes with inner quotes
doubled; any other field is written verbatim. -/
def csvField (s : String) : String :=
  if s.data.any (fun ch => ch = ',' || ch = '"' || ch = '\n' || ch = '\r') then
    "\"" ++ String.mk (s.data.flatMap (fun ch => if ch = '"' then ['"', '"'] else [ch])) ++ "\""
  else s

/-- One comma-delimited CSV line. -/
def csvLine (r : List String) : String :=
  String.intercalate "," (r.map csvField)

/-- The report write of `mine_repository`: the target filename and the
lines of the file, the header always first, one line per accumulated row.
(The bytes on disk are the UTF-8 encoding of these lines, per
`open(..., encoding="utf-8")`.) -/
def writeReport (owner repo : String) (rows : List (List String)) :
    String × List String :=
  (output_filename owner repo, (csvHeader :: rows).map csvLine)

/-! ### Helper lemmas -/

lemma mem_snapInsert {s : Snapshot} {k : String} {v : Option String}
    {p : String × Option String} (h : p ∈ snapInsert s k v) :
    p ∈ s ∨ p = (k, v) := by
  unfold snapInsert at h
  by_cases hk : s.any (fun p => p.1 == k)
  · rw [if_pos hk] at h
    rcases List.mem_map.mp h with ⟨q, hq, hfq⟩
    by_cases hqk : q.1 == k
    · right
      rw [if_pos hqk] at hfq
      exact hfq.symm
    · left
      rw [if_neg hqk] at hfq
      exact hfq ▸ hq
  · rw [if_neg hk] at h
    rcases List.mem_append.mp h with h1 | h1
    · exact Or.inl h1
    · exact Or.inr (List.mem_singleton.mp h1)

lemma mem_regexEntries {p : String × Option String} :
    ∀ (blocks : List DepEntry) (acc : Snapshot),
      p ∈ regexEntries blocks acc → p ∈ acc ∨ ∃ b ∈ blocks, regexEntry b = some p
  | [], acc, h => Or.inl h
  | b :: rest, acc, h => by
    unfold regexEntries at h
    cases hb : regexEntry b with
    | none =>
      rw [hb] at h
      rcases mem_regexEntries rest acc h with h1 | ⟨b', hb', he⟩
      · exact Or.inl h1
      · exact Or.inr ⟨b', List.mem_cons_of_mem _ hb', he⟩
    | some kv =>
      rw [hb] at h
      rcases mem_regexEntries rest (snapInsert acc kv.1 kv.2) h with h1 | ⟨b', hb', he⟩
      · rcases mem_snapInsert h1 with h2 | h2
        · exact Or.inl h2
        · exact Or.inr ⟨b, List.mem_cons_self _ _, by rw [hb, h2]⟩
      · exact Or.inr ⟨b', List.mem_cons_of_mem _ hb', he⟩

/-! ### Claim theorems -/

/-- C7: empty (`""`) or absent (Python `None`) input makes both extractor
strategies return the empty snapshot without raising. -/
theorem c7_empty_input :
    _parse_pom_dependencies none = .ok [] ∧
    _parse_pom_dependencies (some .empty) = .ok [] ∧
    _parse_dependency_blocks none = [] ∧
    _parse_dependency_blocks (some .empty) = [] :=
  ⟨rfl, rfl, rfl, rfl⟩

/-- C10: a dependency entry whose groupId, artifactId or version element is
present but has no text makes the structural extractor raise
(`None.strip()`), while an entry whose groupId or artifactId element is
entirely absent is silently skipped. -/
theorem c10_empty_element_raises :
    _parse_pom_dependencies
        (some (.wellFormed [⟨some none, some (some "a"), none⟩])) = .error () ∧
    _parse_pom_dependencies
        (some (.wellFormed [⟨some (some "g"), some none, none⟩])) = .error () ∧
    _parse_pom_dependencies
        (some (.wellFormed [⟨some (some "g"), some (some "a"), some none⟩])) = .error () ∧
    _parse_pom_dependencies
        (some (.wellFormed [⟨none, some (some "a"), some (some "1")⟩])) = .ok [] ∧
    _parse_pom_dependencies
        (some (.wellFormed [⟨some (some "g"), none, some (some "1")⟩])) = .ok [] :=
  ⟨rfl, rfl, rfl, rfl, rfl⟩

/-- C2 counterexample: on the well-formed input with the single version-less
entry `<groupId>g, <artifactId>a`, the structural strategy returns the
snapshot `{"g:a": None}` while the pattern-based strategy returns the empty
snapshot (its regex keeps a block only when a version matches too), so the
two strategies are not interchangeable on well-formed inputs with
version-less entries. -/
theorem c2_strategies_disagree_on_versionless :
    _parse_pom_dependencies
        (some (.wellFormed [⟨some (some "g"), some (some "a"), none⟩]))
      ≠ Except.ok (_parse_dependency_blocks
        (some (.wellFormed [⟨some (some "g"), some (some "a"), none⟩]))) := by
  intro h
  have h2 : ([("g:a", (none : Option String))] : Snapshot) = [] := Except.ok.inj h
  exact absurd h2 (by decide)

/-- C4: an unparseable (non-XML) text makes the structural strategy raise
(`etree.fromstring`), while the pattern-based strategy never raises there:
it returns the regex scan of whatever dependency blocks the text holds, and
every entry of that result originates from a block its patterns matched. -/
theorem c4_malformed_behavior (blocks : List DepEntry) :
    _parse_pom_dependencies (some (.malformed blocks)) = Except.error () ∧
    _parse_dependency_blocks (some (.malformed blocks)) = regexEntries blocks [] ∧
    ∀ p ∈ _parse_dependency_blocks (some (.malformed blocks)),
      ∃ b ∈ blocks, regexEntry b = some p := by
  refine ⟨rfl, rfl, fun p hp => ?_⟩
  rcases mem_regexEntries blocks [] hp with h | h
  · exact absurd h (List.not_mem_nil p)
  · exact h

/-- C4 witness at a concrete malformed text holding one fully matched
block. -/
theorem c4_malformed_behavior_witness :
    ∃ b ∈ [(⟨some (some "g"), some (some "a"), some (some "1.0")⟩ : DepEntry)],
      regexEntry b = some ("g:a", some "1.0") :=
  (c4_malformed_behavior [⟨some (some "g"), some (some "a"), some (some "1.0")⟩]).2.2
    ("g:a", some "1.0") (by decide)

/-- C8: the report goes to `owner ++ "_" ++ repo ++ "_dependency_commits.csv"`,
its first line is always the fixed five-column comma-delimited header (also
when there are zero data rows), and each data row becomes one
comma-delimited line after it. -/
theorem c8_report_format (owner repo : String) (rows : List (List String)) :
    (writeReport owner repo rows).1
        = owner ++ "_" ++ repo ++ "_dependency_commits.csv" ∧
    (writeReport owner repo rows).2.head?
        = some "commit_hash,commit_date,commit_author,dependency,change_type" ∧
    (writeReport owner repo rows).2 = csvLine csvHeader :: rows.map csvLine ∧
    csvLine csvHeader
        = "commit_hash,commit_date,commit_author,dependency,change_type" := by
  refine ⟨rfl, ?_, rfl, by decide⟩
  show some (csvLine csvHeader) = _
  rw [show csvLine csvHeader
        = "commit_hash,commit_date,commit_author,dependency,change_type" by decide]

lemma parsePomEntry_skip (e : DepEntry) (h : e.group = none ∨ e.artifact = none) :
    parsePomEntry e = .ok none := by
  obtain ⟨eg, ea, ev⟩ := e
  rcases h with h | h
  · have hg : eg = none := h
    subst hg
    rfl
  · have ha : ea = none := h
    subst ha
    rcases eg with _ | (_ | g) <;> rfl

lemma parsePomEntries_cons_skip (e : DepEntry) (es : List DepEntry) (acc : Snapshot)
    (h : parsePomEntry e = .ok none) :
    parsePomEntries (e :: es) acc = parsePomEntries es acc := by
  simp only [parsePomEntries]
  rw [h]

lemma parsePomEntries_cons_insert (e : DepEntry) (es : List DepEntry) (acc : Snapshot)
    (k : String) (v : Option String) (h : parsePomEntry e = .ok (some (k, v))) :
    parsePomEntries (e :: es) acc = parsePomEntries es (snapInsert acc k v) := by
  simp only [parsePomEntries]
  rw [h]

lemma parsePomEntries_cons_error (e : DepEntry) (es : List DepEntry) (acc : Snapshot)
    (h : parsePomEntry e = .error ()) :
    parsePomEntries (e :: es) acc = .error () := by
  simp only [parsePomEntries]
  rw [h]

lemma parsePomEntries_skip_middle (e : DepEntry) (h : parsePomEntry e = .ok none) :
    ∀ (pre post : List DepEntry) (acc : Snapshot),
      parsePomEntries (pre ++ e :: post) acc = parsePomEntries (pre ++ post) acc
  | [], post, acc => by
    simpa using parsePomEntries_cons_skip e post acc h
  | p :: pre, post, acc => by
    simp only [List.cons_append]
    cases hp : parsePomEntry p with
    | error u =>
      cases u
      rw [parsePomEntries_cons_error p _ acc hp, parsePomEntries_cons_error p _ acc hp]
    | ok o =>
      cases o with
      | none =>
        rw [parsePomEntries_cons_skip p _ acc hp, parsePomEntries_cons_skip p _ acc hp]
        exact parsePomEntries_skip_middle e h pre post acc
      | some kv =>
        obtain ⟨k, v⟩ := kv
        rw [parsePomEntries_cons_insert p _ acc k v hp,
            parsePomEntries_cons_insert p _ acc k v hp]
        exact parsePomEntries_skip_middle e h pre post (snapInsert acc k v)

lemma parsePomEntry_keep_no_version (e : DepEntry) (g a : String)
    (hg : e.group = some (some g)) (ha : e.artifact = some (some a))
    (hv : e.version = none) :
    parsePomEntry e = .ok (some (pyStrip g ++ ":" ++ pyStrip a, none)) := by
  obtain ⟨eg, ea, ev⟩ := e
  have hg' : eg = some (some g) := hg
  have ha' : ea = some (some a) := ha
  have hv' : ev = none := hv
  subst hg'
  subst ha'
  subst hv'
  rfl

/-- C3: the structural extractor turns an entry lacking a groupId or
artifactId element into a no-op of the fold (the entry contributes no key),
and an entry with both identifiers but no version element into a dict store
of its key with a null version. -/
theorem c3_skip_and_null_version (e : DepEntry) :
    (∀ (pre post : List DepEntry) (acc : Snapshot),
        e.group = none ∨ e.artifact = none →
        parsePomEntries (pre ++ e :: post) acc = parsePomEntries (pre ++ post) acc) ∧
    (∀ (g a : String) (es : List DepEntry) (acc : Snapshot),
        e.group = some (some g) → e.artifact = some (some a) → e.version = none →
        parsePomEntries (e :: es) acc
          = parsePomEntries es (snapInsert acc (pyStrip g ++ ":" ++ pyStrip a) none)) := by
  constructor
  · intro pre post acc h
    exact parsePomEntries_skip_middle e (parsePomEntry_skip e h) pre post acc
  · intro g a es acc hg ha hv
    exact parsePomEntries_cons_insert e es acc _ none
      (parsePomEntry_keep_no_version e g a hg ha hv)

/-- C3 witness: a groupId-less entry in the middle of a list is dropped, and
a version-less entry is stored with a null version. -/
theorem c3_skip_and_null_version_witness :
    parsePomEntries ([(⟨some (some "x"), some (some "y"), some (some "7")⟩ : DepEntry)]
        ++ (⟨none, some (some "a"), some (some "1")⟩ : DepEntry) :: []) []
      = parsePomEntries
          ([(⟨some (some "x"), some (some "y"), some (some "7")⟩ : DepEntry)] ++ []) [] ∧
    parsePomEntries [(⟨some (some "g"), some (some "a"), none⟩ : DepEntry)] []
      = parsePomEntries [] (snapInsert [] (pyStrip "g" ++ ":" ++ pyStrip "a") none) :=
  ⟨(c3_skip_and_null_version ⟨none, some (some "a"), some (some "1")⟩).1
      [⟨some (some "x"), some (some "y"), some (some "7")⟩] [] [] (Or.inl rfl),
   (c3_skip_and_null_version ⟨some (some "g"), some (some "a"), none⟩).2
      "g" "a" [] [] rfl rfl rfl⟩

lemma entry_agree (e : DepEntry)
    (h : (∃ g a v, e.group = some (some g) ∧ e.artifact = some (some a)
            ∧ e.version = some (some v))
          ∨ e.group = none ∨ e.artifact = none) :
    (parsePomEntry e = .ok none ∧ regexEntry e = none)
    ∨ ∃ k v, parsePomEntry e = .ok (some (k, v)) ∧ regexEntry e = some (k, v) := by
  obtain ⟨eg, ea, ev⟩ := e
  rcases eg with _ | (_ | g)
  · exact Or.inl ⟨rfl, by rcases ea with _ | (_ | a) <;> rcases ev with _ | (_ | v) <;> rfl⟩
  · rcases h with ⟨g, a, v, hg, _, _⟩ | hg | ha
    · simp at hg
    · simp at hg
    · have ha' : ea = none := ha
      subst ha'
      exact Or.inl ⟨rfl, by rcases ev with _ | (_ | v) <;> rfl⟩
  · rcases ea with _ | (_ | a)
    · exact Or.inl ⟨rfl, by rcases ev with _ | (_ | v) <;> rfl⟩
    · rcases h with ⟨g', a', v', _, ha, _⟩ | hg | ha
      · simp at ha
      · simp at hg
      · simp at ha
    · rcases h with ⟨g', a', v', hg, ha, hv⟩ | hg | ha
      · have hv' : ev = some (some v') := hv
        subst hv'
        exact Or.inr ⟨_, _, rfl, rfl⟩
      · simp at hg
      · simp at ha

lemma strategies_agree_aux :
    ∀ (es : List DepEntry) (acc : Snapshot),
      (∀ e ∈ es,
        (∃ g a v, e.group = some (some g) ∧ e.artifact = some (some a)
            ∧ e.version = some (some v))
          ∨ e.group = none ∨ e.artifact = none) →
      parsePomEntries es acc = .ok (regexEntries es acc)
  | [], _, _ => rfl
  | e :: es, acc, h => by
    rcases entry_agree e (h e (List.mem_cons_self e es)) with ⟨hp, hr⟩ | ⟨k, v, hp, hr⟩
    · rw [parsePomEntries_cons_skip e es acc hp]
      rw [show regexEntries (e :: es) acc = regexEntries es acc by
        simp only [regexEntries]; rw [hr]]
      exact strategies_agree_aux es acc (fun e' he' => h e' (List.mem_cons_of_mem e he'))
    · rw [parsePomEntries_cons_insert e es acc k v hp]
      rw [show regexEntries (e :: es) acc = regexEntries es (snapInsert acc k v) by
        simp only [regexEntries]; rw [hr]]
      exact strategies_agree_aux es _ (fun e' he' => h e' (List.mem_cons_of_mem e he'))

/-- C2 (amended): the structural and the pattern-based strategy yield
identical snapshots on every well-formed input in which each dependency
entry either lacks its groupId or artifactId element (both skip it) or has
groupId, artifactId and version elements all present with text; on
version-less entries the strategies diverge
(see the counterexample theorem). -/
theorem c2_strategies_agree_on_versioned (es : List DepEntry)
    (h : ∀ e ∈ es,
        (∃ g a v, e.group = some (some g) ∧ e.artifact = some (some a)
            ∧ e.version = some (some v))
          ∨ e.group = none ∨ e.artifact = none) :
    _parse_pom_dependencies (some (.wellFormed es))
      = .ok (_parse_dependency_blocks (some (.wellFormed es))) :=
  strategies_agree_aux es [] h

/-- C2 witness: both strategies agree on a concrete well-formed input with
one fully versioned entry and one skipped entry. -/
theorem c2_strategies_agree_on_versioned_witness :
    _parse_pom_dependencies (some (.wellFormed
        [⟨some (some "g"), some (some "a"), some (some "1.0")⟩,
         ⟨none, some (some "b"), none⟩]))
      = .ok (_parse_dependency_blocks (some (.wellFormed
        [⟨some (some "g"), some (some "a"), some (some "1.0")⟩,
         ⟨none, some (some "b"), none⟩]))) :=
  c2_strategies_agree_on_versioned
    [⟨some (some "g"), some (some "a"), some (some "1.0")⟩,
     ⟨none, some (some "b"), none⟩]
    (by
      intro e he
      rcases List.mem_cons.mp he with h1 | h2
      · subst h1
        exact Or.inl ⟨"g", "a", "1.0", rfl, rfl, rfl⟩
      · rcases List.mem_cons.mp h2 with h3 | h4
        · subst h3
          exact Or.inr (Or.inl rfl)
        · exact absurd h4 (List.not_mem_nil e))

lemma snapHasKey_iff (s : Snapshot) (k : String) :
    snapHasKey s k = true ↔ k ∈ snapKeys s := by
  simp [snapHasKey, snapKeys, List.any_eq_true]

lemma find?_key_overwrite (k : String) (v : Option String) :
    ∀ (s : Snapshot), s.any (fun p => p.1 == k) = true →
      (s.map (fun p => if p.1 == k then (k, v) else p)).find? (fun p => p.1 == k)
        = some (k, v)
  | [], h => by simp at h
  | p :: rest, h => by
    cases hpk : (p.1 == k) with
    | true =>
      rw [List.map_cons, if_pos hpk]
      rw [List.find?_cons_of_pos _ (by simp)]
    | false =>
      rw [List.map_cons, if_neg (by simp [hpk])]
      rw [List.find?_cons_of_neg _ (by simp [hpk])]
      refine find?_key_overwrite k v rest ?_
      simpa [List.any_cons, hpk] using h

lemma find?_key_append_fresh (k : String) (v : Option String) :
    ∀ (s : Snapshot), (∀ p ∈ s, (p.1 == k) = false) →
      (s ++ [(k, v)]).find? (fun p => p.1 == k) = some (k, v)
  | [], _ => by
    rw [List.nil_append, List.find?_cons_of_pos _ (by simp)]
  | p :: rest, h => by
    have hp : (p.1 == k) = false := h p (List.mem_cons_self p rest)
    rw [List.cons_append, List.find?_cons_of_neg _ (by simp [hp])]
    exact find?_key_append_fresh k v rest (fun q hq => h q (List.mem_cons_of_mem p hq))

lemma snapLookup_snapInsert_self (s : Snapshot) (k : String) (v : Option String) :
    snapLookup (snapInsert s k v) k = some v := by
  unfold snapInsert
  by_cases h : (s.any (fun p => p.1 == k)) = true
  · rw [if_pos h]
    unfold snapLookup
    rw [find?_key_overwrite k v s h]
    rfl
  · rw [if_neg h]
    have hn : ∀ p ∈ s, (p.1 == k) = false := by
      intro p hp
      cases h1 : (p.1 == k) with
      | false => rfl
      | true => exact absurd (List.any_eq_true.mpr ⟨p, hp, h1⟩) h
    unfold snapLookup
    rw [find?_key_append_fresh k v s hn]
    rfl

lemma find?_key_other (k k' : String) (v : Option String) (hk : k' ≠ k) :
    ∀ (s : Snapshot),
      (s.map (fun p => if p.1 == k then (k, v) else p)).find? (fun p => p.1 == k')
        = s.find? (fun p => p.1 == k')
  | [] => rfl
  | p :: rest => by
    have hkk' : (k == k') = false := beq_eq_false_iff_ne.mpr (fun h => hk h.symm)
    rw [List.map_cons]
    cases hpk : (p.1 == k) with
    | true =>
      have hp1 : p.1 = k := by simpa using hpk
      have hpk' : (p.1 == k') = false := by
        rw [hp1]
        exact hkk'
      rw [if_pos rfl]
      simp only [List.find?_cons, hpk', hkk']
      exact find?_key_other k k' v hk rest
    | false =>
      rw [if_neg Bool.false_ne_true]
      cases hpk' : (p.1 == k') with
      | true => simp only [List.find?_cons, hpk']
      | false =>
        simp only [List.find?_cons, hpk']
        exact find?_key_other k k' v hk rest

lemma find?_append_single (k k' : String) (v : Option String) (hk : k' ≠ k)
    (s : Snapshot) :
    (s ++ [(k, v)]).find? (fun p => p.1 == k') = s.find? (fun p => p.1 == k') := by
  have hkk' : (k == k') = false := beq_eq_false_iff_ne.mpr (fun h => hk h.symm)
  induction s with
  | nil =>
    rw [List.nil_append]
    simp only [List.find?_cons, hkk', List.find?_nil]
  | cons p rest ih =>
    rw [List.cons_append]
    cases hp : (p.1 == k') with
    | true => simp only [List.find?_cons, hp]
    | false =>
      simp only [List.find?_cons, hp]
      exact ih

lemma snapLookup_snapInsert_other (s : Snapshot) (k : String) (v : Option String)
    (k' : String) (hk : k' ≠ k) :
    snapLookup (snapInsert s k v) k' = snapLookup s k' := by
  unfold snapInsert snapLookup
  by_cases h : (s.any (fun p => p.1 == k)) = true
  · rw [if_pos h, find?_key_other k k' v hk s]
  · rw [if_neg h, find?_append_single k k' v hk s]

lemma snapKeys_snapInsert_of_mem (s : Snapshot) (k : String) (v : Option String)
    (h : s.any (fun p => p.1 == k) = true) :
    snapKeys (snapInsert s k v) = snapKeys s := by
  unfold snapInsert
  rw [if_pos h]
  unfold snapKeys
  rw [List.map_map]
  refine List.map_congr_left (fun p _ => ?_)
  cases hpk : (p.1 == k) with
  | true =>
    simp only [Function.comp_apply]
    rw [if_pos hpk]
    exact (by simpa using hpk : p.1 = k).symm
  | false =>
    simp only [Function.comp_apply]
    rw [if_neg (by simp [hpk])]

lemma snapKeys_snapInsert_of_not_mem (s : Snapshot) (k : String) (v : Option String)
    (h : s.any (fun p => p.1 == k) = false) :
    snapKeys (snapInsert s k v) = snapKeys s ++ [k] := by
  unfold snapInsert
  rw [if_neg (by simp [h])]
  simp [snapKeys]

lemma nodup_snapInsert {s : Snapshot} (k : String) (v : Option String)
    (h : (snapKeys s).Nodup) : (snapKeys (snapInsert s k v)).Nodup := by
  cases h1 : s.any (fun p => p.1 == k) with
  | true =>
    rw [snapKeys_snapInsert_of_mem s k v h1]
    exact h
  | false =>
    rw [snapKeys_snapInsert_of_not_mem s k v h1]
    have hk : k ∉ snapKeys s := by
      intro hmem
      have h2 := (snapHasKey_iff s k).mpr hmem
      rw [snapHasKey] at h2
      rw [h1] at h2
      exact Bool.false_ne_true h2
    simp [List.nodup_append, h, hk]

lemma mem_snapKeys_snapInsert (s : Snapshot) (k : String) (v : Option String) :
    k ∈ snapKeys (snapInsert s k v) := by
  cases h1 : s.any (fun p => p.1 == k) with
  | true =>
    rw [snapKeys_snapInsert_of_mem s k v h1]
    exact (snapHasKey_iff s k).mp h1
  | false =>
    rw [snapKeys_snapInsert_of_not_mem s k v h1]
    simp

lemma parsePomEntries_nodup :
    ∀ (es : List DepEntry) (acc s : Snapshot),
      (snapKeys acc).Nodup → parsePomEntries es acc = .ok s → (snapKeys s).Nodup
  | [], acc, s, h, he => by
    have : acc = s := Except.ok.inj he
    exact this ▸ h
  | e :: es, acc, s, h, he => by
    simp only [parsePomEntries] at he
    cases hp : parsePomEntry e with
    | error u =>
      rw [hp] at he
      exact Except.noConfusion he
    | ok o =>
      rw [hp] at he
      cases o with
      | none => exact parsePomEntries_nodup es acc s h he
      | some kv =>
        obtain ⟨k, v⟩ := kv
        exact parsePomEntries_nodup es (snapInsert acc k v) s
          (nodup_snapInsert k v h) he

lemma parsePomEntries_append :
    ∀ (xs ys : List DepEntry) (acc : Snapshot),
      parsePomEntries (xs ++ ys) acc
        = match parsePomEntries xs acc with
          | .error u => .error u
          | .ok s => parsePomEntries ys s
  | [], _, _ => rfl
  | x :: xs, ys, acc => by
    simp only [List.cons_append, parsePomEntries]
    cases parsePomEntry x with
    | error u => rfl
    | ok o =>
      cases o with
      | none => exact parsePomEntries_append xs ys acc
      | some kv =>
        obtain ⟨k, v⟩ := kv
        exact parsePomEntries_append xs ys (snapInsert acc k v)

/-- C9: when one more entry producing key `k` is parsed after the entries
that produced snapshot `s`, the dict maps `k` to the last entry's version,
every other key is untouched, and `k` occupies exactly one dict slot —
so duplicated keys are overwritten and the occurrence last in document
order wins. -/
theorem c9_duplicate_key_last_wins (es : List DepEntry) (e : DepEntry)
    (s s' : Snapshot) (k : String) (v : Option String)
    (hs : parsePomEntries es [] = .ok s)
    (he : parsePomEntry e = .ok (some (k, v)))
    (hs' : parsePomEntries (es ++ [e]) [] = .ok s') :
    snapLookup s' k = some v ∧
    (∀ k', k' ≠ k → snapLookup s' k' = snapLookup s k') ∧
    (snapKeys s').count k = 1 := by
  have hsn : (snapKeys s).Nodup := parsePomEntries_nodup es [] s (by simp [snapKeys]) hs
  have heq : parsePomEntries (es ++ [e]) [] = .ok (snapInsert s k v) := by
    rw [parsePomEntries_append es [e] [], hs]
    exact parsePomEntries_cons_insert e [] s k v he
  have hseq : s' = snapInsert s k v := Except.ok.inj (hs'.symm.trans heq)
  subst hseq
  exact ⟨snapLookup_snapInsert_self s k v,
    fun k' hk' => snapLookup_snapInsert_other s k v k' hk',
    List.count_eq_one_of_mem (nodup_snapInsert k v hsn) (mem_snapKeys_snapInsert s k v)⟩

/-- C9 witness: two entries with the key `g:a`, versions `1.0` then `2.0`;
the snapshot holds `2.0`, other keys are unaffected, and `g:a` occupies one
slot. -/
theorem c9_duplicate_key_last_wins_witness :
    snapLookup [("g:a", some "2.0")] "g:a" = some (some "2.0") ∧
    snapLookup [("g:a", some "2.0")] "g:b" = snapLookup [("g:a", some "1.0")] "g:b" ∧
    (snapKeys [("g:a", some "2.0")]).count "g:a" = 1 :=
  ⟨(c9_duplicate_key_last_wins
      [⟨some (some "g"), some (some "a"), some (some "1.0")⟩]
      ⟨some (some "g"), some (some "a"), some (some "2.0")⟩
      [("g:a", some "1.0")] [("g:a", some "2.0")] "g:a" (some "2.0")
      rfl rfl rfl).1,
   (c9_duplicate_key_last_wins
      [⟨some (some "g"), some (some "a"), some (some "1.0")⟩]
      ⟨some (some "g"), some (some "a"), some (some "2.0")⟩
      [("g:a", some "1.0")] [("g:a", some "2.0")] "g:a" (some "2.0")
      rfl rfl rfl).2.1 "g:b" (by decide),
   (c9_duplicate_key_last_wins
      [⟨some (some "g"), some (some "a"), some (some "1.0")⟩]
      ⟨some (some "g"), some (some "a"), some (some "2.0")⟩
      [("g:a", some "1.0")] [("g:a", some "2.0")] "g:a" (some "2.0")
      rfl rfl rfl).2.2⟩

lemma filter_key_nil (q : String → Bool) (k : String) :
    ∀ (l : List String), (k ∉ l ∨ q k = false) →
      (l.filter q).filter (fun x => x == k) = []
  | [], _ => rfl
  | x :: xs, h => by
    have htail : k ∉ xs ∨ q k = false := by
      rcases h with h | h
      · exact Or.inl (fun hm => h (List.mem_cons_of_mem x hm))
      · exact Or.inr h
    cases hqx : q x with
    | false =>
      rw [List.filter_cons, if_neg (by simp [hqx])]
      exact filter_key_nil q k xs htail
    | true =>
      have hxk : (x == k) = false := by
        refine beq_eq_false_iff_ne.mpr (fun he => ?_)
        rcases h with h | h
        · exact h (he ▸ List.mem_cons_self x xs)
        · exact absurd (he ▸ hqx) (by simp [h])
      rw [List.filter_cons, if_pos hqx, List.filter_cons, if_neg (by simp [hxk])]
      exact filter_key_nil q k xs htail

lemma filter_key_single (q : String → Bool) (k : String) :
    ∀ (l : List String), l.Nodup → k ∈ l → q k = true →
      (l.filter q).filter (fun x => x == k) = [k]
  | [], _, hk, _ => absurd hk (List.not_mem_nil k)
  | x :: xs, hnd, hk, hq => by
    have hnd' := List.nodup_cons.mp hnd
    rcases List.mem_cons.mp hk with rfl | hm
    · rw [List.filter_cons, if_pos hq, List.filter_cons, if_pos (by simp)]
      rw [filter_key_nil q k xs (Or.inl hnd'.1)]
    · have hxk : (x == k) = false := by
        refine beq_eq_false_iff_ne.mpr (fun he => ?_)
        exact hnd'.1 (by rw [he]; exact hm)
      cases hqx : q x with
      | false =>
        rw [List.filter_cons, if_neg (by simp [hqx])]
        exact filter_key_single q k xs hnd'.2 hm hq
      | true =>
        rw [List.filter_cons, if_pos hqx, List.filter_cons, if_neg (by simp [hxk])]
        exact filter_key_single q k xs hnd'.2 hm hq

lemma filter_key_map_const (c : Change) (k : String) :
    ∀ (l : List String),
      ((l.map (fun x => (x, c))).filter (fun r => r.1 == k))
        = (l.filter (fun x => x == k)).map (fun x => (x, c))
  | [] => rfl
  | x :: xs => by
    cases hx : (x == k) with
    | true =>
      rw [List.map_cons, List.filter_cons, if_pos hx, List.filter_cons, if_pos hx,
          List.map_cons, filter_key_map_const c k xs]
    | false =>
      rw [List.map_cons, List.filter_cons, if_neg (by simp [hx]),
          List.filter_cons, if_neg (by simp [hx])]
      exact filter_key_map_const c k xs

lemma filter_key_filterMap (g : String → Option (String × Change)) (k : String)
    (hg : ∀ x r, g x = some r → r.1 = x) :
    ∀ (l : List String),
      (l.filterMap g).filter (fun r => r.1 == k)
        = (l.filter (fun x => x == k)).filterMap g
  | [] => rfl
  | x :: xs => by
    cases hgx : g x with
    | none =>
      cases hx : (x == k) with
      | true =>
        rw [List.filterMap_cons, hgx, List.filter_cons, if_pos hx,
            List.filterMap_cons, hgx]
        exact filter_key_filterMap g k hg xs
      | false =>
        rw [List.filterMap_cons, hgx, List.filter_cons, if_neg (by simp [hx])]
        exact filter_key_filterMap g k hg xs
    | some r =>
      have hr1 : r.1 = x := hg x r hgx
      cases hx : (x == k) with
      | true =>
        have hrk : (r.1 == k) = true := by rw [hr1]; exact hx
        rw [List.filterMap_cons, hgx, List.filter_cons, if_pos hrk,
            List.filter_cons, if_pos hx, List.filterMap_cons, hgx,
            filter_key_filterMap g k hg xs]
      | false =>
        have hrk : (r.1 == k) = false := by rw [hr1]; exact hx
        rw [List.filterMap_cons, hgx, List.filter_cons, if_neg (by simp [hrk]),
            List.filter_cons, if_neg (by simp [hx])]
        exact filter_key_filterMap g k hg xs

lemma snapLookup_mem_keys {s : Snapshot} {k : String} {v : Option String}
    (h : snapLookup s k = some v) : k ∈ snapKeys s := by
  unfold snapLookup at h
  cases hf : s.find? (fun p => p.1 == k) with
  | none =>
    rw [hf] at h
    exact Option.noConfusion h
  | some p =>
    have hp := List.find?_some hf
    have hmem := List.mem_of_find?_eq_some hf
    have hp1 : p.1 = k := by simpa using hp
    exact hp1 ▸ List.mem_map_of_mem Prod.fst hmem

lemma snapHasKey_eq_false {s : Snapshot} {k : String} (h : k ∉ snapKeys s) :
    snapHasKey s k = false := by
  cases hb : snapHasKey s k with
  | false => rfl
  | true => exact absurd ((snapHasKey_iff s k).mp hb) h

lemma changedRecord_eq (oldS newS : Snapshot) (k : String) (ov nv : Option String)
    (ho : snapLookup oldS k = some ov) (hn : snapLookup newS k = some nv) :
    changedRecord oldS newS k
      = if ov = nv then none else some (k, Change.changedFrom ov nv) := by
  unfold changedRecord
  rw [ho, hn]

lemma changedRecord_key (oldS newS : Snapshot) :
    ∀ (x : String) (r : String × Change),
      changedRecord oldS newS x = some r → r.1 = x := by
  intro x r h
  cases ho : snapLookup oldS x with
  | none =>
    exact absurd h (by simp [changedRecord, ho])
  | some ov =>
    cases hn : snapLookup newS x with
    | none =>
      exact absurd h (by simp [changedRecord, ho, hn])
    | some nv =>
      rw [changedRecord_eq oldS newS x ov nv ho hn] at h
      by_cases he : ov = nv
      · rw [if_pos he] at h
        exact Option.noConfusion h
      · rw [if_neg he] at h
        rw [← Option.some.inj h]

/-- C1: for every key, the diff of two snapshots (with the unique keys every
Python dict has) emits exactly one `added` record when the key is only in
the new snapshot, exactly one `removed` record when it is only in the old
one, exactly one `changed` record carrying both versions when it is in both
with different versions (null against non-null included), and no record when
it is in both with the same version. -/
theorem c1_diff_classification (oldS newS : Snapshot) (k : String)
    (hold : (snapKeys oldS).Nodup) (hnew : (snapKeys newS).Nodup) :
    (k ∈ snapKeys newS → k ∉ snapKeys oldS →
        (diffSnapshots oldS newS).filter (fun r => r.1 == k) = [(k, Change.added)]) ∧
    (k ∈ snapKeys oldS → k ∉ snapKeys newS →
        (diffSnapshots oldS newS).filter (fun r => r.1 == k) = [(k, Change.removed)]) ∧
    (∀ ov nv, snapLookup oldS k = some ov → snapLookup newS k = some nv → ov ≠ nv →
        (diffSnapshots oldS newS).filter (fun r => r.1 == k)
          = [(k, Change.changedFrom ov nv)]) ∧
    (∀ v, snapLookup oldS k = some v → snapLookup newS k = some v →
        (diffSnapshots oldS newS).filter (fun r => r.1 == k) = []) := by
  have hg := changedRecord_key oldS newS
  refine ⟨?_, ?_, ?_, ?_⟩
  · intro hkn hko
    have hbo : snapHasKey oldS k = false := snapHasKey_eq_false hko
    simp only [diffSnapshots, List.filter_append]
    rw [filter_key_map_const Change.added k, filter_key_map_const Change.removed k,
        filter_key_filterMap (changedRecord oldS newS) k hg]
    rw [filter_key_single (fun x => !snapHasKey oldS x) k (snapKeys newS) hnew hkn
          (by simp [hbo])]
    rw [filter_key_nil (fun x => !snapHasKey newS x) k (snapKeys oldS) (Or.inl hko)]
    rw [filter_key_nil (fun x => snapHasKey newS x) k (snapKeys oldS) (Or.inl hko)]
    simp
  · intro hko hkn
    have hbn : snapHasKey newS k = false := snapHasKey_eq_false hkn
    simp only [diffSnapshots, List.filter_append]
    rw [filter_key_map_const Change.added k, filter_key_map_const Change.removed k,
        filter_key_filterMap (changedRecord oldS newS) k hg]
    rw [filter_key_nil (fun x => !snapHasKey oldS x) k (snapKeys newS) (Or.inl hkn)]
    rw [filter_key_single (fun x => !snapHasKey newS x) k (snapKeys oldS) hold hko
          (by simp [hbn])]
    rw [filter_key_nil (fun x => snapHasKey newS x) k (snapKeys oldS) (Or.inr hbn)]
    simp
  · intro ov nv hov hnv hne
    have hko : k ∈ snapKeys oldS := snapLookup_mem_keys hov
    have hkn : k ∈ snapKeys newS := snapLookup_mem_keys hnv
    have hbo : snapHasKey oldS k = true := (snapHasKey_iff oldS k).mpr hko
    have hbn : snapHasKey newS k = true := (snapHasKey_iff newS k).mpr hkn
    simp only [diffSnapshots, List.filter_append]
    rw [filter_key_map_const Change.added k, filter_key_map_const Change.removed k,
        filter_key_filterMap (changedRecord oldS newS) k hg]
    rw [filter_key_nil (fun x => !snapHasKey oldS x) k (snapKeys newS)
          (Or.inr (by simp [hbo]))]
    rw [filter_key_nil (fun x => !snapHasKey newS x) k (snapKeys oldS)
          (Or.inr (by simp [hbn]))]
    rw [filter_key_single (fun x => snapHasKey newS x) k (snapKeys oldS) hold hko hbn]
    have hc : changedRecord oldS newS k = some (k, Change.changedFrom ov nv) := by
      rw [changedRecord_eq oldS newS k ov nv hov hnv, if_neg hne]
    simp [hc]
  · intro v hov hnv
    have hko : k ∈ snapKeys oldS := snapLookup_mem_keys hov
    have hkn : k ∈ snapKeys newS := snapLookup_mem_keys hnv
    have hbo : snapHasKey oldS k = true := (snapHasKey_iff oldS k).mpr hko
    have hbn : snapHasKey newS k = true := (snapHasKey_iff newS k).mpr hkn
    simp only [diffSnapshots, List.filter_append]
    rw [filter_key_map_const Change.added k, filter_key_map_const Change.removed k,
        filter_key_filterMap (changedRecord oldS newS) k hg]
    rw [filter_key_nil (fun x => !snapHasKey oldS x) k (snapKeys newS)
          (Or.inr (by simp [hbo]))]
    rw [filter_key_nil (fun x => !snapHasKey newS x) k (snapKeys oldS)
          (Or.inr (by simp [hbn]))]
    rw [filter_key_single (fun x => snapHasKey newS x) k (snapKeys oldS) hold hko hbn]
    have hc : changedRecord oldS newS k = none := by
      rw [changedRecord_eq oldS newS k v v hov hnv, if_pos rfl]
    simp [hc]

/-- C1 witness on the snapshot pair
old = `{"g:a": "1.0", "g:b": "1"}`, new = `{"g:a": "2.0", "g:c": None}`:
`g:c` is added, `g:b` removed, `g:a` changed, and the pair
old = new = `{"g:a": "1.0"}` emits nothing. -/
theorem c1_diff_classification_witness :
    (diffSnapshots [("g:a", some "1.0"), ("g:b", some "1")]
        [("g:a", some "2.0"), ("g:c", none)]).filter (fun r => r.1 == "g:c")
      = [("g:c", Change.added)] ∧
    (diffSnapshots [("g:a", some "1.0"), ("g:b", some "1")]
        [("g:a", some "2.0"), ("g:c", none)]).filter (fun r => r.1 == "g:b")
      = [("g:b", Change.removed)] ∧
    (diffSnapshots [("g:a", some "1.0"), ("g:b", some "1")]
        [("g:a", some "2.0"), ("g:c", none)]).filter (fun r => r.1 == "g:a")
      = [("g:a", Change.changedFrom (some "1.0") (some "2.0"))] ∧
    (diffSnapshots [("g:a", some "1.0")] [("g:a", some "1.0")]).filter
        (fun r => r.1 == "g:a")
      = [] :=
  ⟨(c1_diff_classification [("g:a", some "1.0"), ("g:b", some "1")]
      [("g:a", some "2.0"), ("g:c", none)] "g:c" (by decide) (by decide)).1
      (by decide) (by decide),
   (c1_diff_classification [("g:a", some "1.0"), ("g:b", some "1")]
      [("g:a", some "2.0"), ("g:c", none)] "g:b" (by decide) (by decide)).2.1
      (by decide) (by decide),
   (c1_diff_classification [("g:a", some "1.0"), ("g:b", some "1")]
      [("g:a", some "2.0"), ("g:c", none)] "g:a" (by decide) (by decide)).2.2.1
      (some "1.0") (some "2.0") (by decide) (by decide) (by decide),
   (c1_diff_classification [("g:a", some "1.0")] [("g:a", some "1.0")] "g:a"
      (by decide) (by decide)).2.2.2 (some "1.0") (by decide) (by decide)⟩

lemma setAdd_idem (s : List String) (x : String) : setAdd (setAdd s x) x = setAdd s x := by
  by_cases h : x ∈ s
  · have h1 : setAdd s x = s := if_pos h
    rw [h1, h1]
  · have h1 : setAdd s x = s ++ [x] := if_neg h
    rw [h1]
    unfold setAdd
    rw [if_pos (List.mem_append.mpr (Or.inr (List.mem_singleton.mpr rfl)))]

lemma emitRecords_append (st : MineState) (h : String) (a b : List (List String)) :
    emitRecords (emitRecords st h a) h b = emitRecords st h (a ++ b) := by
  unfold emitRecords
  rw [List.foldl_append]

lemma emitRecords_closed :
    ∀ (recs : List (List String)) (st : MineState) (h : String),
      emitRecords st h recs
        = (st.1 ++ recs, if recs.isEmpty then st.2 else setAdd st.2 h)
  | [], st, h => by simp [emitRecords]
  | r :: rest, st, h => by
    have step : emitRecords st h (r :: rest)
        = emitRecords (st.1 ++ [r], setAdd st.2 h) h rest := by
      unfold emitRecords
      rw [List.foldl_cons]
    rw [step, emitRecords_closed rest (st.1 ++ [r], setAdd st.2 h) h]
    simp [setAdd_idem, List.append_assoc]

lemma fileFold_collect (c : Commit) :
    ∀ (ms : List ModifiedFile) (st : MineState) (acc : List (List String)),
      fileFold c ms (emitRecords st c.hash acc)
        = match collectRecords c ms acc with
          | .error u => .error u
          | .ok recs => .ok (emitRecords st c.hash recs)
  | [], st, acc => rfl
  | m :: ms, st, acc => by
    simp only [fileFold, collectRecords, fileStep]
    cases hf : fileRecords c m with
    | error u => rfl
    | ok recs =>
      show fileFold c ms (emitRecords (emitRecords st c.hash acc) c.hash recs)
          = match collectRecords c ms (acc ++ recs) with
            | .error u => .error u
            | .ok recs => .ok (emitRecords st c.hash recs)
      rw [emitRecords_append]
      exact fileFold_collect c ms st (acc ++ recs)

lemma commitStep_eq (st : MineState) (c : Commit) :
    commitStep st c
      = match commitRecords c with
        | .error u => .error u
        | .ok recs => .ok (emitRecords st c.hash recs) := by
  unfold commitStep commitRecords
  have h := fileFold_collect c c.modified_files st []
  rw [show emitRecords st c.hash [] = st from rfl] at h
  exact h

lemma commitFold_ok :
    ∀ (commits : List Commit) (st : MineState) (rows : List (List String))
      (cs : List String),
      (commits.map Commit.hash).Nodup →
      (∀ c ∈ commits, c.hash ∉ st.2) →
      commitFold commits st = .ok (rows, cs) →
      cs = st.2 ++ (commits.filter (fun c => !(commitRecList c).isEmpty)).map Commit.hash
  | [], st, rows, cs, _, _, h => by
    have hst : st = (rows, cs) := Except.ok.inj h
    subst hst
    simp
  | c :: rest, st, rows, cs, hnd, hfresh, h => by
    simp only [List.map_cons, List.nodup_cons] at hnd
    simp only [commitFold] at h
    rw [commitStep_eq st c] at h
    cases hcr : commitRecords c with
    | error u =>
      rw [hcr] at h
      exact Except.noConfusion h
    | ok recs =>
      rw [hcr] at h
      have h' : commitFold rest (emitRecords st c.hash recs) = .ok (rows, cs) := h
      rw [emitRecords_closed recs st c.hash] at h'
      have hcl : commitRecList c = recs := by
        unfold commitRecList
        rw [hcr]
        rfl
      by_cases hre : recs.isEmpty
      · rw [if_pos hre] at h'
        have hrecs : recs = [] := List.isEmpty_iff.mp hre
        have IH := commitFold_ok rest (st.1 ++ recs, st.2) rows cs hnd.2
          (fun c' hc' => hfresh c' (List.mem_cons_of_mem c hc')) h'
        rw [IH]
        simp [List.filter_cons, hcl, hrecs]
      · rw [if_neg hre] at h'
        have hmem : c.hash ∉ st.2 := hfresh c (List.mem_cons_self c rest)
        have hset : setAdd st.2 c.hash = st.2 ++ [c.hash] := if_neg hmem
        rw [hset] at h'
        have hfresh' : ∀ c' ∈ rest, c'.hash ∉ st.2 ++ [c.hash] := by
          intro c' hc' hmem0
          rcases List.mem_append.mp hmem0 with hmem1 | hmem1
          · exact hfresh c' (List.mem_cons_of_mem c hc') hmem1
          · have heq : c'.hash = c.hash := List.mem_singleton.mp hmem1
            exact hnd.1 (heq ▸ List.mem_map_of_mem Commit.hash hc')
        have IH := commitFold_ok rest (st.1 ++ recs, st.2 ++ [c.hash]) rows cs hnd.2
          hfresh' h'
        rw [IH]
        simp [List.filter_cons, hcl, hre, List.append_assoc]

/-- C5: in a successful run over commits with pairwise-distinct hashes, the
`commits_with_changes` set is exactly one entry per commit that produced at
least one change record — however many records the commit produced — with
no duplicates, so its size counts the distinct commit hashes with at least
one record. -/
theorem c5_commit_set (commits : List Commit) (rows : List (List String))
    (cs : List String)
    (hdist : (commits.map Commit.hash).Nodup)
    (h : mineCommits commits = .ok (rows, cs)) :
    cs = (commits.filter (fun c => !(commitRecList c).isEmpty)).map Commit.hash ∧
    cs.Nodup := by
  have h1 := commitFold_ok commits ([], []) rows cs hdist
    (fun c _ => List.not_mem_nil c.hash) h
  have h2 : cs
      = (commits.filter (fun c => !(commitRecList c).isEmpty)).map Commit.hash := by
    simpa using h1
  refine ⟨h2, ?_⟩
  rw [h2]
  exact List.Nodup.sublist ((List.filter_sublist commits).map Commit.hash) hdist

/-- C5 witness: a first commit with one version change (one record) enters
the set once, a second commit touching no descriptor does not. -/
theorem c5_commit_set_witness :
    ["h1"]
      = (([(⟨"h1", "2020-01-01", "alice",
            [⟨"pom.xml",
              some (.wellFormed [⟨some (some "g"), some (some "a"), some (some "1.0")⟩]),
              some (.wellFormed [⟨some (some "g"), some (some "a"), some (some "2.0")⟩])⟩]⟩ : Commit),
          (⟨"h2", "2020-01-02", "bob", [⟨"README.md", none, some .empty⟩]⟩ : Commit)].filter
          (fun c => !(commitRecList c).isEmpty)).map Commit.hash) ∧
    (["h1"] : List String).Nodup :=
  c5_commit_set
    [⟨"h1", "2020-01-01", "alice",
      [⟨"pom.xml",
        some (.wellFormed [⟨some (some "g"), some (some "a"), some (some "1.0")⟩]),
        some (.wellFormed [⟨some (some "g"), some (some "a"), some (some "2.0")⟩])⟩]⟩,
     ⟨"h2", "2020-01-02", "bob", [⟨"README.md", none, some .empty⟩]⟩]
    [["h1", "2020-01-01", "alice", "g:a", "changed from 1.0 to 2.0"]]
    ["h1"] (by decide) rfl

/-- C6: a modified file whose name is not exactly `pom.xml` contributes no
records, and a commit all of whose modified files have other names produces
zero records and leaves the mining state — rows and commit set — untouched. -/
theorem c6_filename_filter (c : Commit)
    (h : ∀ m ∈ c.modified_files, m.filename ≠ "pom.xml") :
    (∀ (c' : Commit) (m : ModifiedFile), m.filename ≠ "pom.xml" →
        fileRecords c' m = .ok []) ∧
    commitRecords c = .ok [] ∧
    (∀ st : MineState, commitStep st c = .ok st) := by
  have hfr : ∀ (c' : Commit) (m : ModifiedFile), m.filename ≠ "pom.xml" →
      fileRecords c' m = .ok [] := by
    intro c' m hm
    unfold fileRecords
    rw [if_neg hm]
  have hcollect : ∀ ms, (∀ m ∈ ms, m.filename ≠ "pom.xml") →
      ∀ acc, collectRecords c ms acc = .ok acc := by
    intro ms
    induction ms with
    | nil =>
      intro _ acc
      rfl
    | cons m ms ih =>
      intro hms acc
      simp only [collectRecords]
      rw [hfr c m (hms m (List.mem_cons_self m ms))]
      show collectRecords c ms (acc ++ []) = .ok acc
      rw [List.append_nil]
      exact ih (fun m' hm' => hms m' (List.mem_cons_of_mem m hm')) acc
  have hfold : ∀ ms, (∀ m ∈ ms, m.filename ≠ "pom.xml") →
      ∀ st : MineState, fileFold c ms st = .ok st := by
    intro ms
    induction ms with
    | nil =>
      intro _ st
      rfl
    | cons m ms ih =>
      intro hms st
      simp only [fileFold, fileStep]
      rw [hfr c m (hms m (List.mem_cons_self m ms))]
      show fileFold c ms (emitRecords st c.hash []) = .ok st
      rw [show emitRecords st c.hash [] = st from rfl]
      exact ih (fun m' hm' => hms m' (List.mem_cons_of_mem m hm')) st
  exact ⟨hfr, hcollect c.modified_files h [], fun st => hfold c.modified_files h st⟩

/-- C6 witness: a commit that only touches `README.md` yields no records and
an unchanged state, and a `build.gradle` file contributes nothing. -/
theorem c6_filename_filter_witness :
    fileRecords (⟨"h2", "2020-01-02", "bob", [⟨"README.md", none, some .empty⟩]⟩ : Commit)
        ⟨"build.gradle", none, none⟩ = .ok [] ∧
    commitRecords (⟨"h2", "2020-01-02", "bob", [⟨"README.md", none, some .empty⟩]⟩ : Commit)
        = .ok [] ∧
    commitStep ([], [])
        (⟨"h2", "2020-01-02", "bob", [⟨"README.md", none, some .empty⟩]⟩ : Commit)
        = .ok ([], []) :=
  ⟨(c6_filename_filter ⟨"h2", "2020-01-02", "bob", [⟨"README.md", none, some .empty⟩]⟩
      (by decide)).1
      ⟨"h2", "2020-01-02", "bob", [⟨"README.md", none, some .empty⟩]⟩
      ⟨"build.gradle", none, none⟩ (by decide),
   (c6_filename_filter ⟨"h2", "2020-01-02", "bob", [⟨"README.md", none, some .empty⟩]⟩
      (by decide)).2.1,
   (c6_filename_filter ⟨"h2", "2020-01-02", "bob", [⟨"README.md", none, some .empty⟩]⟩
      (by decide)).2.2 ([], [])⟩
